import Mathlib

/-!
Verification development for the MDT model-sampling orchestration layer and
its simulation utilities (`mdt/model_sampling.py`, `mdt/simulations.py`).

Arrays are embedded as lists; a 2D numpy array is a list of rows.  Machine
floating point is embedded as exact arithmetic (`ℚ` where the code is pure
arithmetic, `ℝ` where a square root occurs); the properties proved here are
structural and do not depend on rounding.
-/

namespace MDTVerify

/-- Semantics of `np.repeat(xs, r)` for a 1D array: every element of `xs`
repeated `r` times consecutively, so position `i` holds `xs[i / r]`. -/
def npRepeat {α : Type} (d : α) (xs : List α) (r : ℕ) : List α :=
  (List.range (xs.length * r)).map (fun i => xs.getD (i / r) d)

/-- Semantics of `np.tile(xs, g)` along the last axis for a 1D array: `xs`
concatenated `g` times, so position `i` holds `xs[i % len(xs)]`. -/
def npTile {α : Type} (d : α) (xs : List α) (g : ℕ) : List α :=
  (List.range (xs.length * g)).map (fun i => xs.getD (i % xs.length) d)

/-- Semantics of `np.linspace(lb, ub, n)`: `n` evenly spaced values from `lb`
to `ub`, both endpoints included when `n ≥ 2`; `[lb]` when `n = 1`. -/
def linspace (lb ub : ℚ) (n : ℕ) : List ℚ :=
  if n = 1 then [lb]
  else (List.range n).map (fun t : ℕ => lb + (ub - lb) * (t : ℚ) / ((n : ℚ) - 1))

/-- Semantics of `np.transpose` for a rectangular 2D array given as a list of
rows: entry `(c, j)` of the result is entry `(j, c)` of the input. -/
def npTranspose {α : Type} (d : α) (m : List (List α)) : List (List α) :=
  (List.range (m.headD []).length).map (fun c => m.map (fun row => row.getD c d))

/-- One pass of the tiling loop shared by `permutate_parameters`
(mdt/simulations.py lines 50-55) and `get_permuted_indices` (lines 80-83): the
accumulated matrix is tiled along the combination axis by the grid size, the
row of the current parameter is overwritten by that parameter's value list
with every element repeated `repeat_mult` times, and `repeat_mult` is
multiplied by the grid size.  A step is `(row index, grid size, value list)`;
the accumulator is `(matrix, repeat_mult)`. -/
def gridStep {α : Type} (d : α) (acc : List (List α) × ℕ) (st : ℕ × ℕ × List α) :
    List (List α) × ℕ :=
  ((acc.1.map (fun row => npTile d row st.2.1)).set st.1 (npRepeat d st.2.2 acc.2),
   acc.2 * st.2.1)

/-- The whole tiling loop, starting from the initial one-column matrix with
`repeat_mult = 1`. -/
def gridFold {α : Type} (d : α) (steps : List (ℕ × ℕ × List α))
    (init : List (List α)) : List (List α) :=
  (steps.foldl (gridStep d) (init, 1)).1

/-- The product of the grid sizes of a step list: the number of combinations
the loop generates. -/
def stepsProd {α : Type} (steps : List (ℕ × ℕ × List α)) : ℕ :=
  (steps.map (fun st => st.2.1)).prod

/-- A numpy-style grid size argument as accepted by the simulation routines:
either a single number or a list with one size per varying parameter. -/
inductive NpGridSize where
  | scalar (g : ℕ)
  | sizes (gs : List ℕ)
deriving DecidableEq

/-- A Python runtime error, as far as the embedded routines can raise one. -/
inductive PyError where
  | typeError
deriving DecidableEq

/-- The body of `permutate_parameters` (mdt/simulations.py lines 47-57) once
the grid size is a list with one entry per varying parameter: the result
matrix starts as the column vector of the default values with
`len(lower_bounds)` rows (line 47); the loop tiles the matrix by the grid
size of each varying parameter and overwrites that parameter's row with its
linspace values, each repeated `repeat_mult` times (lines 49-55); the
transpose is returned (line 57). -/
def permutate_core (var_params_ind : List ℕ)
    (default_values lower_bounds upper_bounds : List ℚ)
    (gs : List ℕ) : List (List ℚ) :=
  npTranspose 0
    (gridFold 0
      ((var_params_ind.zip gs).map
        (fun pg => (pg.1, pg.2,
          linspace (lower_bounds.getD pg.1 0) (upper_bounds.getD pg.1 0) pg.2)))
      ((List.range lower_bounds.length).map (fun j => [default_values.getD j 0])))

/-- Embedding of `permutate_parameters` (mdt/simulations.py lines 20-57).  A
scalar grid size is broadcast to `[int(grid_size)] * len(var_params_ind)`
(lines 44-45) before the tiling loop runs. -/
def permutate_parameters (var_params_ind : List ℕ)
    (default_values lower_bounds upper_bounds : List ℚ)
    (grid_size : NpGridSize) : List (List ℚ) :=
  match grid_size with
  | .scalar g =>
      permutate_core var_params_ind default_values lower_bounds upper_bounds
        (List.replicate var_params_ind.length g)
  | .sizes l =>
      permutate_core var_params_ind default_values lower_bounds upper_bounds l

/-- The matrix built by `get_permuted_indices` (mdt/simulations.py lines
77-85) once the grid size is a list: the indices matrix starts as an
`nmr_var_params × 1` zero matrix, the loop tiles it by `grid_size[ind]` and
overwrites row `ind` with `np.arange(0, grid_size[ind])`, each value repeated
`repeat_mult` times; the transpose is returned. -/
def permuted_indices_core (nmr_var_params : ℕ) (gs : List ℕ) : List (List ℕ) :=
  npTranspose 0
    (gridFold 0
      ((List.range nmr_var_params).map
        (fun i => (i, gs.getD i 0, List.range (gs.getD i 0))))
      (List.replicate nmr_var_params [0]))

/-- Embedding of `get_permuted_indices` (mdt/simulations.py lines 60-85).
Unlike `permutate_parameters` there is no scalar broadcast: the loop body
subscripts `grid_size[ind]` directly, which raises `TypeError` in Python when
`grid_size` is a single int. -/
def get_permuted_indices (nmr_var_params : ℕ) (grid_size : NpGridSize) :
    Except PyError (List (List ℕ)) :=
  match grid_size with
  | .scalar _ => .error .typeError
  | .sizes gs => .ok (permuted_indices_core nmr_var_params gs)

/-- A protocol as the orchestration layer consumes it: the model's own
predicates inspect it, the layer itself only passes it around.  Embedded as
its list of column names. -/
abbrev Protocol := List String

/-- What the orchestration layer uses of a composite (single) model: the
`is_protocol_sufficient` and `get_protocol_problems` interface of
mdt/models/base.py, plus the model name. -/
structure CompositeModel where
  name : String
  is_protocol_sufficient : Protocol → Bool
  get_protocol_problems : Protocol → List String

/-- A model handed to the sampling entry is either a composite model or a
cascade (`DMRICascadeModelInterface`); the entry rejects cascades
(mdt/model_sampling.py lines 66-67). -/
inductive MdtModel where
  | composite (m : CompositeModel)
  | cascade (name : String)

/-- Error taxonomy of the orchestration layer (spec section 7): the spec's
`UnsupportedModelKind` is the `ValueError` of mdt/model_sampling.py line 67,
`InsufficientProtocol` the `InsufficientProtocolError` of lines 89-93 and
170-173, and `NoInitializationMapsFound` the `RuntimeError` of lines
225-227. -/
inductive OrchestrationError where
  | unsupportedModelKind
  | insufficientProtocol (problems : List String)
  | noInitializationMapsFound (folder : String)
deriving DecidableEq

/-- The part of the file system one `SampleSingleModel` run touches, at the
granularity the spec describes: whether the output directory
`<output_folder>/<model_name>/samples` exists, and the persisted result under
`samples/volume_maps/`.  Modelled from the spec: the presence of the complete
expected set of volume maps (the resumability completeness marker,
`model_output_exists` in mdt/utils.py, outside this excerpt) is `persisted ≠
none`; results themselves are abstracted to opaque tokens. -/
structure SamplesFS where
  outputPathExists : Bool
  persisted : Option ℕ
deriving DecidableEq

/-- Observable side effects of one run. -/
inductive RunEvent where
  | resolveDevices
  | deleteOutputDir
  | makeOutputDir
  | computeViaStrategy
deriving DecidableEq

/-- Modelled from the spec: `model_output_exists(model, path +
'/volume_maps/')` (mdt/utils.py, outside this excerpt) checks the
completeness marker — all expected volume maps present. -/
def model_output_exists (fs : SamplesFS) : Bool :=
  fs.persisted.isSome

/-- Modelled from the spec: `load_samples(output_path)` (mdt/utils.py,
outside this excerpt) loads the persisted result; the 0 default never occurs
when the completeness marker holds. -/
def load_samples (fs : SamplesFS) : ℕ :=
  fs.persisted.getD 0

/-- Modelled from the spec (section 4.4): the Processing Strategy's `run`
computes `computed`, persists it under the output path before returning, and
returns it. -/
def processing_strategy_run (computed : ℕ) (_fs : SamplesFS) : SamplesFS × ℕ :=
  (⟨true, some computed⟩, computed)

/-- Outcome of one `SampleSingleModel.run`: the final filesystem state, the
returned result, and the observable events in order. -/
structure RunOutcome where
  fs : SamplesFS
  result : ℕ
  events : List RunEvent
deriving DecidableEq

/-- Embedding of `SampleSingleModel.run` (mdt/model_sampling.py lines
175-198): with `recalculate` true an existing output directory is deleted
first (lines 179-181); otherwise, when the completeness marker exists under
`<output_path>/volume_maps/`, computation is skipped and the persisted result
is loaded and returned (lines 183-186); otherwise the output directory is
created when absent (lines 188-189) and the Processing Strategy runs (lines
191-198).  `computed` is the result the strategy would compute. -/
def sampleSingleModel_run (recalculate : Bool) (computed : ℕ) (fs : SamplesFS) :
    RunOutcome :=
  if recalculate then
    let ev1 : List RunEvent :=
      if fs.outputPathExists then [.deleteOutputDir] else []
    let fs1 : SamplesFS := if fs.outputPathExists then ⟨false, none⟩ else fs
    let fs2 : SamplesFS := ⟨true, fs1.persisted⟩
    let r := processing_strategy_run computed fs2
    ⟨r.1, r.2, ev1 ++ [.makeOutputDir, .computeViaStrategy]⟩
  else if model_output_exists fs then
    ⟨fs, load_samples fs, []⟩
  else
    let ev1 : List RunEvent :=
      if fs.outputPathExists then [] else [.makeOutputDir]
    let fs2 : SamplesFS := ⟨true, fs.persisted⟩
    let r := processing_strategy_run computed fs2
    ⟨r.1, r.2, ev1 ++ [.computeViaStrategy]⟩

/-- Embedding of the entry checks of `ModelSampling.__init__`
(mdt/model_sampling.py lines 32-93): the cascade rejection (lines 66-67)
comes first; the steps between it and the protocol-sufficiency check (lines
89-93) are pure object construction (sampler defaulting, device-index
wrapping) with no I/O.  Devices are only resolved in `run` (lines 101-116). -/
def ModelSampling_init (model : MdtModel) (protocol : Protocol) :
    Except OrchestrationError CompositeModel :=
  match model with
  | .cascade _ => .error .unsupportedModelKind
  | .composite m =>
      if m.is_protocol_sufficient protocol then .ok m
      else .error (.insufficientProtocol (m.get_protocol_problems protocol))

/-- Embedding of the entry check of `SampleSingleModel.__init__`
(mdt/model_sampling.py lines 170-173): the protocol-sufficiency check is
repeated at this layer. -/
def SampleSingleModel_init (m : CompositeModel) (protocol : Protocol) :
    Except OrchestrationError Unit :=
  if m.is_protocol_sufficient protocol then .ok ()
  else .error (.insufficientProtocol (m.get_protocol_problems protocol))

/-- The sampling entry as a whole: `ModelSampling.__init__`, then inside
`run` the device resolution (`get_cl_devices`, mdt/model_sampling.py lines
103-106, performed only when device indices were given), the construction of
`SampleSingleModel` and its `run`.  A construction error aborts before any of
the run's observable side effects; the second component is the trace of
events that actually happened. -/
def ModelSampling_entry (model : MdtModel) (protocol : Protocol)
    (cl_device_ind : Option (List ℕ)) (recalculate : Bool) (computed : ℕ)
    (fs : SamplesFS) :
    Except OrchestrationError RunOutcome × List RunEvent :=
  match ModelSampling_init model protocol with
  | .error e => (.error e, [])
  | .ok m =>
      let devEvents : List RunEvent :=
        match cl_device_ind with
        | some _ => [.resolveDevices]
        | none => []
      match SampleSingleModel_init m protocol with
      | .error e => (.error e, devEvents)
      | .ok _ =>
          let out := sampleSingleModel_run recalculate computed fs
          (.ok out, devEvents ++ out.events)

/-- A value in an `initialize_using` mapping: a path string, a scalar, or a
per-voxel array (mdt/model_sampling.py lines 217-223). -/
inductive InitValue where
  | pathStr (s : String)
  | scalar (v : ℚ)
  | array (a : List ℚ)
deriving DecidableEq

/-- The `initialize_using` argument: `None`, a folder path, or a mapping
(mdt/model_sampling.py lines 205-223). -/
inductive InitializeUsing where
  | none
  | folder (path : String)
  | mapping (m : List (String × InitValue))

/-- Modelled from the spec: `create_roi(data, mask)` (mdt/utils.py, outside
this excerpt) projects a volume through the mask into the flat array of the
values at active voxels. -/
def create_roi (vol : List ℚ) (mask : List Bool) : List ℚ :=
  ((vol.zip mask).filter (fun vm => vm.2)).map (fun vm => vm.1)

/-- Embedding of `SampleSingleModel._get_initialization_params`
(mdt/model_sampling.py lines 200-231).  `read_volume_maps` abstracts
`Nifti.read_volume_maps` (mdt/IO.py, external I/O) and `load_volume`
abstracts `nib.load(...).get_data()`; `fallback_folder` is
`<output_folder>/<model_name>` (line 206).  With `initialize` false the empty
mapping is returned (line 231); otherwise the maps are resolved by the
runtime type of `initialize_using` (lines 205-223) and an empty collection
raises the NoInitializationMapsFound error (`RuntimeError`, lines
225-227). -/
def get_initialization_params (initialization : Bool)
    (initialize_using : InitializeUsing)
    (read_volume_maps : String → List (String × List ℚ))
    (load_volume : String → List ℚ)
    (mask : List Bool) (fallback_folder : String) :
    Except OrchestrationError (List (String × InitValue)) :=
  if initialization then
    let maps : List (String × InitValue) :=
      match initialize_using with
      | .none =>
          (read_volume_maps fallback_folder).map
            (fun kv => (kv.1, InitValue.array (create_roi kv.2 mask)))
      | .folder path =>
          (read_volume_maps path).map
            (fun kv => (kv.1, InitValue.array (create_roi kv.2 mask)))
      | .mapping m =>
          m.map (fun kv => (kv.1,
            match kv.2 with
            | .pathStr s => InitValue.array (create_roi (load_volume s) mask)
            | .scalar v => InitValue.scalar v
            | .array a => InitValue.array (create_roi a mask)))
    if maps.isEmpty then .error (.noInitializationMapsFound fallback_folder)
    else .ok maps
  else .ok []

/-- Elementwise combination of two 2D arrays of the same shape, embedded as
lists of rows. -/
def elemMap2 (f : ℝ → ℝ → ℝ) (a b : List (List ℝ)) : List (List ℝ) :=
  (a.zip b).map (fun rows => (rows.1.zip rows.2).map (fun xy => f xy.1 xy.2))

/-- Semantics of `np.sqrt(a, out)`: the second positional argument of
`np.sqrt` is the output buffer, not a second operand, so the value produced
is the elementwise square root of `a` alone. -/
noncomputable def npSqrtWithOut (a _out : List (List ℝ)) : List (List ℝ) :=
  a.map (fun row => row.map Real.sqrt)

/-- Embedding of `make_rician_distributed` (mdt/simulations.py lines
108-124), with the two standard-normal draws as explicit inputs:
`x = noise_level * x_draw + signals` (line 122), `y = noise_level * y_draw`
(line 123), and the returned value is `np.sqrt(np.power(x, 2),
np.power(y, 2))` (line 124) — `np.power(y, 2)` is the `out` argument of
`np.sqrt`.  The cast to the signals' dtype is the identity here since all
values are reals. -/
noncomputable def make_rician_distributed (signals x_draw y_draw : List (List ℝ))
    (noise_level : ℝ) : List (List ℝ) :=
  let x := elemMap2 (fun s d => noise_level * d + s) signals x_draw
  let y := y_draw.map (fun row => row.map (fun d => noise_level * d))
  npSqrtWithOut (x.map (fun row => row.map (fun v => v ^ 2)))
    (y.map (fun row => row.map (fun v => v ^ 2)))

/-- The protocol data `estimate_noise_std` consumes: the indices of the
unweighted measurements (`Protocol.get_unweighted_indices`). -/
structure NoiseProtocol where
  unweighted_indices : List ℕ

/-- Embedding of `get_unweighted_volumes` (mdt/simulations.py lines 167-182)
on the signal side: select the unweighted columns of every signal row.  The
restricted protocol object carries no numeric content used downstream. -/
def get_unweighted_volumes (signals : List (List ℝ)) (idx : List ℕ) :
    List (List ℝ) :=
  signals.map (fun row => idx.map (fun i => row.getD i 0))

/-- Embedding of `estimate_noise_std` (mdt/simulations.py lines 185-223).
The external Powell optimizer fitting the S0 model with noise std fixed at 1
(mot library) is abstracted as `fit_s0`, returning one baseline estimate per
problem; everything after the fit follows the source: the signals are
restricted to the unweighted columns (line 206), residuals are the
unweighted signals minus the broadcast `s0` column (lines 215-217), the
per-problem sum of squared residuals is taken over the measurement axis
(line 219, `axis=1`), divided by `baseline_images.shape[0]` — the number of
problems (line 220) — then `sqrt(mean_squares / 2)` (line 222) and the mean
over the batch (line 223). -/
noncomputable def estimate_noise_std (signals : List (List ℝ))
    (protocol : NoiseProtocol) (fit_s0 : List (List ℝ) → List ℝ) : ℝ :=
  let unweighted_signals := get_unweighted_volumes signals protocol.unweighted_indices
  let s0 := fit_s0 unweighted_signals
  let baseline_images := (unweighted_signals.zip s0).map
      (fun rs => rs.1.map (fun v => v - rs.2))
  let sum_of_squares := baseline_images.map (fun row => (row.map (fun v => v ^ 2)).sum)
  let mean_squares := sum_of_squares.map (fun v => v / (baseline_images.length : ℝ))
  let sigmas := mean_squares.map (fun v => Real.sqrt (v / 2))
  sigmas.sum / (sigmas.length : ℝ)

/-- The estimator as the claim states it: identical pipeline, but each
per-problem sum of squared residuals is divided by the number of unweighted
measurements (the length of the measurement axis) before the
`sqrt(mean / 2)` step. -/
noncomputable def estimate_noise_std_claimed (signals : List (List ℝ))
    (protocol : NoiseProtocol) (fit_s0 : List (List ℝ) → List ℝ) : ℝ :=
  let unweighted_signals := get_unweighted_volumes signals protocol.unweighted_indices
  let s0 := fit_s0 unweighted_signals
  let baseline_images := (unweighted_signals.zip s0).map
      (fun rs => rs.1.map (fun v => v - rs.2))
  let mean_squares := baseline_images.map
      (fun row => ((row.map (fun v => v ^ 2)).sum) / (row.length : ℝ))
  let sigmas := mean_squares.map (fun v => Real.sqrt (v / 2))
  sigmas.sum / (sigmas.length : ℝ)

theorem npRepeat_length {α : Type} (d : α) (xs : List α) (r : ℕ) :
    (npRepeat d xs r).length = xs.length * r := by
  simp [npRepeat]

theorem npRepeat_getD {α : Type} (d : α) (xs : List α) (r i : ℕ)
    (h : i < xs.length * r) :
    (npRepeat d xs r).getD i d = xs.getD (i / r) d := by
  rw [npRepeat, List.getD_eq_getElem?_getD, List.getElem?_map,
    List.getElem?_range h]
  rfl

theorem npTile_length {α : Type} (d : α) (xs : List α) (g : ℕ) :
    (npTile d xs g).length = xs.length * g := by
  simp [npTile]

theorem npTile_getD {α : Type} (d : α) (xs : List α) (g i : ℕ)
    (h : i < xs.length * g) :
    (npTile d xs g).getD i d = xs.getD (i % xs.length) d := by
  rw [npTile, List.getD_eq_getElem?_getD, List.getElem?_map,
    List.getElem?_range h]
  rfl

theorem linspace_length (lb ub : ℚ) (n : ℕ) : (linspace lb ub n).length = n := by
  unfold linspace
  split
  · simp only [List.length_cons, List.length_nil]
    omega
  · rw [List.length_map, List.length_range]

theorem linspace_getD (lb ub : ℚ) (n t : ℕ) (hn : 2 ≤ n) (ht : t < n) :
    (linspace lb ub n).getD t 0 = lb + (ub - lb) * t / ((n : ℚ) - 1) := by
  unfold linspace
  have h1 : n ≠ 1 := by omega
  simp only [h1, if_false]
  rw [List.getD_eq_getElem?_getD, List.getElem?_map, List.getElem?_range ht]
  rfl

theorem linspace_getD_zero (lb ub : ℚ) (n : ℕ) (hn : 2 ≤ n) :
    (linspace lb ub n).getD 0 0 = lb := by
  rw [linspace_getD lb ub n 0 hn (by omega)]
  simp

theorem linspace_getD_last (lb ub : ℚ) (n : ℕ) (hn : 2 ≤ n) :
    (linspace lb ub n).getD (n - 1) 0 = ub := by
  rw [linspace_getD lb ub n (n - 1) hn (by omega)]
  have hne : ((n : ℚ) - 1) ≠ 0 := by
    have : (2 : ℚ) ≤ (n : ℚ) := by exact_mod_cast hn
    intro h
    nlinarith
  have hcast : ((n - 1 : ℕ) : ℚ) = (n : ℚ) - 1 := by
    have : (1 : ℕ) ≤ n := by omega
    push_cast [this]
    ring
  rw [hcast]
  field_simp

theorem npTranspose_length {α : Type} (d : α) (m : List (List α)) :
    (npTranspose d m).length = (m.headD []).length := by
  simp [npTranspose]

theorem npTranspose_getD {α : Type} (d : α) (m : List (List α)) (c : ℕ)
    (hc : c < (m.headD []).length) :
    (npTranspose d m).getD c [] = m.map (fun row => row.getD c d) := by
  rw [npTranspose, List.getD_eq_getElem?_getD, List.getElem?_map,
    List.getElem?_range hc]
  rfl

theorem getD_map_row {α : Type} (f : List α → List α) (l : List (List α)) (j : ℕ)
    (h : j < l.length) :
    (l.map f).getD j [] = f (l.getD j []) := by
  rw [List.getD_eq_getElem?_getD, List.getElem?_map, List.getElem?_eq_getElem h,
    List.getD_eq_getElem?_getD, List.getElem?_eq_getElem h]
  rfl

theorem getD_set_self {α : Type} (l : List (List α)) (i : ℕ) (a : List α)
    (h : i < l.length) :
    (l.set i a).getD i [] = a := by
  rw [List.getD_eq_getElem?_getD, List.getElem?_set_self h]
  rfl

theorem getD_set_ne {α : Type} (l : List (List α)) (i j : ℕ) (a : List α)
    (h : i ≠ j) :
    (l.set i a).getD j [] = l.getD j [] := by
  rw [List.getD_eq_getElem?_getD, List.getElem?_set_ne h, ← List.getD_eq_getElem?_getD]

theorem stepsProd_append {α : Type} (l1 l2 : List (ℕ × ℕ × List α)) :
    stepsProd (l1 ++ l2) = stepsProd l1 * stepsProd l2 := by
  simp [stepsProd]

theorem stepsProd_singleton {α : Type} (st : ℕ × ℕ × List α) :
    stepsProd [st] = st.2.1 := by
  simp [stepsProd]

theorem stepsProd_pos {α : Type} (steps : List (ℕ × ℕ × List α))
    (hpos : ∀ st ∈ steps, 0 < st.2.1) : 0 < stepsProd steps := by
  rw [stepsProd, CanonicallyOrderedCommSemiring.list_prod_pos]
  intro x hx
  obtain ⟨st, hst, rfl⟩ := List.mem_map.mp hx
  exact hpos st hst

theorem stepsProd_take_dvd {α : Type} (steps : List (ℕ × ℕ × List α)) (n : ℕ) :
    stepsProd (steps.take n) ∣ stepsProd steps := by
  conv_rhs => rw [← List.take_append_drop n steps]
  rw [stepsProd_append]
  exact dvd_mul_right _ _

theorem getD_append_left {α : Type} (l1 l2 : List α) (i : ℕ) (d : α)
    (h : i < l1.length) :
    (l1 ++ l2).getD i d = l1.getD i d := by
  rw [List.getD_eq_getElem?_getD, List.getElem?_append, if_pos h,
    ← List.getD_eq_getElem?_getD]

theorem getD_mem {α : Type} (l : List α) (i : ℕ) (d : α) (h : i < l.length) :
    l.getD i d ∈ l := by
  rw [List.getD_eq_getElem?_getD, List.getElem?_eq_getElem h]
  exact List.getElem_mem h

theorem stepsProd_take_succ {α : Type} (steps : List (ℕ × ℕ × List α)) (i : ℕ)
    (h : i < steps.length) :
    stepsProd (steps.take (i + 1))
      = stepsProd (steps.take i) * (steps.getD i (0, 1, [])).2.1 := by
  rw [List.take_succ, stepsProd_append, List.getD_eq_getElem?_getD,
    List.getElem?_eq_getElem h]
  simp [stepsProd]

theorem gridFold_foldl_snd {α : Type} (d : α) (steps : List (ℕ × ℕ × List α))
    (m : List (List α)) (r : ℕ) :
    (steps.foldl (gridStep d) (m, r)).2 = r * stepsProd steps := by
  induction steps generalizing m r with
  | nil => simp [stepsProd]
  | cons st rest ih =>
      rw [List.foldl_cons]
      show (rest.foldl (gridStep d) (_, r * st.2.1)).2 = _
      rw [ih]
      simp only [stepsProd, List.map_cons, List.prod_cons]
      ring

theorem mod_div_mod_eq (c P g T : ℕ) (h : P * g ∣ T) :
    c % T / P % g = c / P % g := by
  rw [← Nat.mod_mul_right_div_self c P g, ← Nat.mod_mul_right_div_self (c % T) P g,
    Nat.mod_mod_of_dvd c h]

/-- Closed form of the tiling loop: the matrix has the initial number of rows
and `stepsProd steps` columns; a row the loop never touched holds its initial
value in every column; the row of the `i`-th step holds, in column `c`, the
value of that step's list at grid coordinate `c / (product of the grid sizes
of the earlier steps) % (grid size of step i)` — the first step's coordinate
changes fastest. -/
theorem gridFold_spec {α : Type} (d : α) (steps : List (ℕ × ℕ × List α))
    (init : List (List α))
    (hinit : ∀ row ∈ init, row.length = 1)
    (hval : ∀ st ∈ steps, (st.2.2).length = st.2.1)
    (hpos : ∀ st ∈ steps, 0 < st.2.1)
    (hnodup : (steps.map (fun st => st.1)).Nodup)
    (hrange : ∀ st ∈ steps, st.1 < init.length) :
    (gridFold d steps init).length = init.length ∧
    (∀ j, j < init.length →
      ((gridFold d steps init).getD j []).length = stepsProd steps) ∧
    (∀ j, j < init.length → j ∉ steps.map (fun st => st.1) →
      ∀ c, c < stepsProd steps →
        ((gridFold d steps init).getD j []).getD c d = (init.getD j []).getD 0 d) ∧
    (∀ i, i < steps.length → ∀ c, c < stepsProd steps →
      ((gridFold d steps init).getD (steps.getD i (0, 1, [])).1 []).getD c d
        = (steps.getD i (0, 1, [])).2.2.getD
            (c / stepsProd (steps.take i) % (steps.getD i (0, 1, [])).2.1) d) := by
  induction steps using List.reverseRecOn with
  | nil =>
      refine ⟨rfl, ?_, ?_, ?_⟩
      · intro j hj
        have hmem : init.getD j [] ∈ init := by
          rw [List.getD_eq_getElem?_getD, List.getElem?_eq_getElem hj]
          exact List.getElem_mem hj
        show (init.getD j []).length = stepsProd []
        rw [hinit _ hmem]
        simp [stepsProd]
      · intro j hj hnotin c hc
        have hc0 : c = 0 := by
          simp only [stepsProd, List.map_nil, List.prod_nil] at hc
          omega
        subst hc0
        rfl
      · intro i hi
        simp at hi
  | append_singleton l st ih =>
      obtain ⟨p, g, xs⟩ := st
      have hvall : ∀ s ∈ l, (s.2.2).length = s.2.1 :=
        fun s hs => hval s (List.mem_append_left _ hs)
      have hposl : ∀ s ∈ l, 0 < s.2.1 :=
        fun s hs => hpos s (List.mem_append_left _ hs)
      have hrangel : ∀ s ∈ l, s.1 < init.length :=
        fun s hs => hrange s (List.mem_append_left _ hs)
      have hmapapp : (l ++ [(p, g, xs)]).map (fun st => st.1)
          = l.map (fun st => st.1) ++ [p] := by
        simp
      rw [hmapapp] at hnodup
      have hnodupl : (l.map (fun st => st.1)).Nodup := hnodup.of_append_left
      have hpnotin : p ∉ l.map (fun st => st.1) := by
        intro hp
        have hdisj := (List.nodup_append.mp hnodup).2.2
        exact hdisj hp (List.mem_singleton_self p)
      obtain ⟨IH1, IH2, IH3, IH4⟩ := ih hvall hposl hnodupl hrangel
      have hg : 0 < g := hpos (p, g, xs) (List.mem_append_right _ (by simp))
      have hxslen : xs.length = g := hval (p, g, xs) (List.mem_append_right _ (by simp))
      have hplen : p < init.length := hrange (p, g, xs) (List.mem_append_right _ (by simp))
      have hTpos : 0 < stepsProd l := stepsProd_pos l hposl
      have hTnew : stepsProd (l ++ [(p, g, xs)]) = stepsProd l * g := by
        rw [stepsProd_append, stepsProd_singleton]
      have hsnd : (l.foldl (gridStep d) (init, 1)).2 = stepsProd l := by
        rw [gridFold_foldl_snd]
        exact one_mul _
      have hfold : gridFold d (l ++ [(p, g, xs)]) init
          = ((gridFold d l init).map (fun row => npTile d row g)).set p
              (npRepeat d xs (stepsProd l)) := by
        unfold gridFold
        rw [List.foldl_append]
        simp only [List.foldl_cons, List.foldl_nil, gridStep]
        rw [hsnd]
      refine ⟨?_, ?_, ?_, ?_⟩
      · rw [hfold, List.length_set, List.length_map, IH1]
      · intro j hj
        rw [hfold, hTnew]
        by_cases hjp : j = p
        · subst hjp
          rw [getD_set_self _ _ _ (by rw [List.length_map, IH1]; exact hj)]
          rw [npRepeat_length, hxslen]
          ring
        · rw [getD_set_ne _ _ _ _ (Ne.symm hjp),
            getD_map_row _ _ _ (by rw [IH1]; exact hj)]
          rw [npTile_length, IH2 j hj]
      · intro j hj hjnot c hc
        rw [hmapapp, List.mem_append, List.mem_singleton] at hjnot
        push_neg at hjnot
        rw [hTnew] at hc
        rw [hfold, getD_set_ne _ _ _ _ (Ne.symm hjnot.2),
          getD_map_row _ _ _ (by rw [IH1]; exact hj)]
        have hrowlen : ((gridFold d l init).getD j []).length = stepsProd l := IH2 j hj
        rw [npTile_getD _ _ _ _ (by rw [hrowlen]; exact hc), hrowlen]
        exact IH3 j hj hjnot.1 _ (Nat.mod_lt _ hTpos)
      · intro i hi c hc
        rw [hTnew] at hc
        rcases Nat.lt_or_ge i l.length with hil | hil
        · have hget : (l ++ [(p, g, xs)]).getD i (0, 1, []) = l.getD i (0, 1, []) :=
            getD_append_left _ _ _ _ hil
          have htake : (l ++ [(p, g, xs)]).take i = l.take i :=
            List.take_append_of_le_length (le_of_lt hil)
          have hmem : l.getD i (0, 1, []) ∈ l := getD_mem _ _ _ hil
          have hq : (l.getD i (0, 1, [])).1 ≠ p := by
            intro h
            exact hpnotin (h ▸ List.mem_map.mpr ⟨_, hmem, rfl⟩)
          have hqlen : (l.getD i (0, 1, [])).1 < init.length := hrangel _ hmem
          rw [hget, htake, hfold, getD_set_ne _ _ _ _ (Ne.symm hq),
            getD_map_row _ _ _ (by rw [IH1]; exact hqlen)]
          have hrowlen : ((gridFold d l init).getD (l.getD i (0, 1, [])).1 []).length
              = stepsProd l := IH2 _ hqlen
          rw [npTile_getD _ _ _ _ (by rw [hrowlen]; exact hc), hrowlen]
          rw [IH4 i hil _ (Nat.mod_lt _ hTpos)]
          have hdvd : stepsProd (l.take i) * (l.getD i (0, 1, [])).2.1 ∣ stepsProd l := by
            rw [← stepsProd_take_succ l i hil]
            exact stepsProd_take_dvd l (i + 1)
          rw [mod_div_mod_eq c _ _ _ hdvd]
        · have hlen : (l ++ [(p, g, xs)]).length = l.length + 1 := by simp
          have hieq : i = l.length := by omega
          subst hieq
          have hget : (l ++ [(p, g, xs)]).getD l.length (0, 1, []) = (p, g, xs) := by
            rw [List.getD_eq_getElem?_getD, List.getElem?_append_right le_rfl]
            simp
          have htake : (l ++ [(p, g, xs)]).take l.length = l := List.take_left l _
          rw [hget, htake, hfold,
            getD_set_self _ _ _ (by rw [List.length_map, IH1]; exact hplen)]
          have hclt : c < xs.length * stepsProd l := by
            rw [hxslen, mul_comm]
            exact hc
          rw [npRepeat_getD _ _ _ _ hclt]
          have hdivlt : c / stepsProd l < g := by
            rw [Nat.div_lt_iff_lt_mul hTpos, mul_comm]
            exact hc
          rw [Nat.mod_eq_of_lt hdivlt]

theorem headD_eq_getD {α : Type} (l : List α) (d : α) : l.headD d = l.getD 0 d := by
  cases l <;> rfl

theorem getD_range_map {α : Type} (d : α) (f : ℕ → α) (n j : ℕ) (h : j < n) :
    ((List.range n).map f).getD j d = f j := by
  rw [List.getD_eq_getElem?_getD, List.getElem?_map, List.getElem?_range h]
  rfl

theorem getD_map_of_lt {α β : Type} (f : α → β) (l : List α) (j : ℕ) (d : α)
    (d2 : β) (h : j < l.length) :
    (l.map f).getD j d2 = f (l.getD j d) := by
  rw [List.getD_eq_getElem?_getD, List.getElem?_map, List.getElem?_eq_getElem h,
    List.getD_eq_getElem?_getD, List.getElem?_eq_getElem h]
  rfl

theorem range_map_getD_take {α : Type} (d : α) (l : List α) (i : ℕ)
    (h : i ≤ l.length) :
    (List.range i).map (fun j => l.getD j d) = l.take i := by
  apply List.ext_getElem
  · simp [Nat.min_eq_left h]
  · intro j h1 h2
    simp only [List.getElem_map, List.getElem_range, List.getElem_take]
    have hj : j < l.length := lt_of_lt_of_le (by simpa using h1) h
    rw [List.getD_eq_getElem?_getD, List.getElem?_eq_getElem hj]
    rfl

theorem range_map_getD {α : Type} (d : α) (l : List α) :
    (List.range l.length).map (fun j => l.getD j d) = l := by
  rw [range_map_getD_take d l l.length le_rfl, List.take_length]

theorem getD_range (n m : ℕ) (h : m < n) : (List.range n).getD m 0 = m := by
  rw [List.getD_eq_getElem?_getD, List.getElem?_range h]
  rfl

theorem getD_zip (l1 l2 : List ℕ) (i : ℕ) (h1 : i < l1.length)
    (h2 : i < l2.length) :
    (l1.zip l2).getD i (0, 0) = (l1.getD i 0, l2.getD i 0) := by
  have hz : i < (l1.zip l2).length := by
    rw [List.length_zip]
    omega
  rw [List.getD_eq_getElem?_getD, List.getElem?_eq_getElem hz,
    List.getD_eq_getElem?_getD, List.getElem?_eq_getElem h1,
    List.getD_eq_getElem?_getD, List.getElem?_eq_getElem h2]
  simp [List.getElem_zip]

/-- Closed form of the `permutate_parameters` output on a valid list-shaped
grid: `∏ grid_sizes` rows, one column per parameter, the default value in
every non-varying column, and in the column of the `i`-th varying parameter
the linspace value at grid coordinate
`k / (product of the first i grid sizes) % grid_sizes[i]`. -/
theorem permutate_core_entry
    (var : List ℕ) (defaults lb ub : List ℚ) (grids : List ℕ)
    (hn0 : 0 < lb.length)
    (hnodup : var.Nodup)
    (hrange : ∀ p ∈ var, p < lb.length)
    (hglen : grids.length = var.length)
    (hgpos : ∀ g ∈ grids, 0 < g) :
    (permutate_core var defaults lb ub grids).length = grids.prod ∧
    (∀ row ∈ permutate_core var defaults lb ub grids, row.length = lb.length) ∧
    (∀ k, k < grids.prod → ∀ j, j < lb.length → j ∉ var →
      ((permutate_core var defaults lb ub grids).getD k []).getD j 0
        = defaults.getD j 0) ∧
    (∀ k, k < grids.prod → ∀ i, i < var.length →
      ((permutate_core var defaults lb ub grids).getD k []).getD (var.getD i 0) 0
        = (linspace (lb.getD (var.getD i 0) 0) (ub.getD (var.getD i 0) 0)
            (grids.getD i 0)).getD
            (k / (grids.take i).prod % grids.getD i 0) 0) := by
  set steps := (var.zip grids).map
      (fun pg => (pg.1, pg.2, linspace (lb.getD pg.1 0) (ub.getD pg.1 0) pg.2))
    with hsteps
  set init := (List.range lb.length).map (fun j => [defaults.getD j 0]) with hinit
  have hcore : permutate_core var defaults lb ub grids
      = npTranspose 0 (gridFold 0 steps init) := rfl
  have hvz : var.length ≤ grids.length := le_of_eq hglen.symm
  have hfst : steps.map (fun st => st.1) = var := by
    rw [hsteps, List.map_map]
    exact List.map_fst_zip var grids hvz
  have hsnd : steps.map (fun st => st.2.1) = grids := by
    rw [hsteps, List.map_map]
    exact List.map_snd_zip var grids (le_of_eq hglen)
  have hsteplen : steps.length = var.length := by
    rw [hsteps, List.length_map, List.length_zip, hglen, Nat.min_self]
  have hinitlen : init.length = lb.length := by
    rw [hinit, List.length_map, List.length_range]
  have hinitrows : ∀ row ∈ init, row.length = 1 := by
    intro row hrow
    rw [hinit] at hrow
    obtain ⟨j, hj, rfl⟩ := List.mem_map.mp hrow
    rfl
  have hval : ∀ st ∈ steps, st.2.2.length = st.2.1 := by
    intro st hst
    rw [hsteps] at hst
    obtain ⟨pg, hpg, rfl⟩ := List.mem_map.mp hst
    exact linspace_length _ _ _
  have hpos : ∀ st ∈ steps, 0 < st.2.1 := by
    intro st hst
    rw [hsteps] at hst
    obtain ⟨pg, hpg, rfl⟩ := List.mem_map.mp hst
    obtain ⟨p1, g1⟩ := pg
    exact hgpos g1 (List.of_mem_zip hpg).2
  have hnodup2 : (steps.map (fun st => st.1)).Nodup := by
    rw [hfst]
    exact hnodup
  have hrange2 : ∀ st ∈ steps, st.1 < init.length := by
    intro st hst
    rw [hinitlen]
    apply hrange
    rw [← hfst]
    exact List.mem_map_of_mem _ hst
  obtain ⟨G1, G2, G3, G4⟩ := gridFold_spec 0 steps init hinitrows hval hpos hnodup2 hrange2
  have hprod : stepsProd steps = grids.prod := by
    rw [stepsProd, hsnd]
  have htakeprod : ∀ i, stepsProd (steps.take i) = (grids.take i).prod := by
    intro i
    rw [stepsProd, List.map_take, hsnd]
  have hstepD : ∀ i, i < var.length →
      steps.getD i (0, 1, ([] : List ℚ))
        = (var.getD i 0, grids.getD i 0,
           linspace (lb.getD (var.getD i 0) 0) (ub.getD (var.getD i 0) 0)
             (grids.getD i 0)) := by
    intro i hi
    have hiz : i < (var.zip grids).length := by
      rw [List.length_zip]
      omega
    rw [hsteps, getD_map_of_lt _ _ _ (0, 0) _ hiz, getD_zip var grids i hi (by omega)]
  have hF0 : ((gridFold 0 steps init).headD []).length = grids.prod := by
    rw [headD_eq_getD, G2 0 (by rw [hinitlen]; exact hn0), hprod]
  refine ⟨?_, ?_, ?_, ?_⟩
  · rw [hcore, npTranspose_length, hF0]
  · intro row hrow
    rw [hcore, npTranspose] at hrow
    obtain ⟨c, hc, rfl⟩ := List.mem_map.mp hrow
    rw [List.length_map, G1, hinitlen]
  · intro k hk j hj hjnot
    have hk2 : k < ((gridFold 0 steps init).headD []).length := by
      rw [hF0]
      exact hk
    rw [hcore, npTranspose_getD _ _ _ hk2,
      getD_map_of_lt _ _ _ [] _ (by rw [G1, hinitlen]; exact hj),
      G3 j (by rw [hinitlen]; exact hj) (by rw [hfst]; exact hjnot) k
        (by rw [hprod]; exact hk),
      hinit, getD_range_map ([] : List ℚ) _ _ _ hj]
    rfl
  · intro k hk i hi
    have hk2 : k < ((gridFold 0 steps init).headD []).length := by
      rw [hF0]
      exact hk
    have hvlt : var.getD i 0 < init.length := by
      rw [hinitlen]
      exact hrange _ (getD_mem var i 0 hi)
    rw [hcore, npTranspose_getD _ _ _ hk2,
      getD_map_of_lt _ _ _ [] _ (by rw [G1]; exact hvlt)]
    have h4 := G4 i (by rw [hsteplen]; exact hi) k (by rw [hprod]; exact hk)
    rw [hstepD i hi, htakeprod i] at h4
    exact h4

/-- Closed form of the `get_permuted_indices` output on a list-shaped grid:
`∏ grid_sizes` rows, one column per varying parameter, and in column `i` the
integer grid coordinate `k / (product of the first i grid sizes) %
grid_sizes[i]`. -/
theorem permuted_indices_core_entry (n : ℕ) (grids : List ℕ)
    (hn0 : 0 < n)
    (hglen : grids.length = n)
    (hgpos : ∀ g ∈ grids, 0 < g) :
    (permuted_indices_core n grids).length = grids.prod ∧
    (∀ row ∈ permuted_indices_core n grids, row.length = n) ∧
    (∀ k, k < grids.prod → ∀ i, i < n →
      ((permuted_indices_core n grids).getD k []).getD i 0
        = k / (grids.take i).prod % grids.getD i 0) := by
  set steps := (List.range n).map
      (fun i => (i, grids.getD i 0, List.range (grids.getD i 0))) with hsteps
  set init := List.replicate n ([0] : List ℕ) with hinit
  have hcore : permuted_indices_core n grids
      = npTranspose 0 (gridFold 0 steps init) := rfl
  have hfst : steps.map (fun st => st.1) = List.range n := by
    rw [hsteps, List.map_map]
    exact List.map_id _
  have hsnd : steps.map (fun st => st.2.1) = grids := by
    rw [hsteps, List.map_map]
    show (List.range n).map (fun i => grids.getD i 0) = grids
    rw [← hglen]
    exact range_map_getD 0 grids
  have hsteplen : steps.length = n := by
    rw [hsteps, List.length_map, List.length_range]
  have hinitlen : init.length = n := by
    rw [hinit, List.length_replicate]
  have hinitrows : ∀ row ∈ init, row.length = 1 := by
    intro row hrow
    rw [hinit] at hrow
    rw [(List.eq_of_mem_replicate hrow : row = [0])]
    rfl
  have hval : ∀ st ∈ steps, st.2.2.length = st.2.1 := by
    intro st hst
    rw [hsteps] at hst
    obtain ⟨i, hi, rfl⟩ := List.mem_map.mp hst
    exact List.length_range _
  have hpos : ∀ st ∈ steps, 0 < st.2.1 := by
    intro st hst
    rw [hsteps] at hst
    obtain ⟨i, hi, rfl⟩ := List.mem_map.mp hst
    rw [List.mem_range] at hi
    exact hgpos _ (getD_mem grids i 0 (by omega))
  have hnodup2 : (steps.map (fun st => st.1)).Nodup := by
    rw [hfst]
    exact List.nodup_range n
  have hrange2 : ∀ st ∈ steps, st.1 < init.length := by
    intro st hst
    rw [hsteps] at hst
    obtain ⟨i, hi, rfl⟩ := List.mem_map.mp hst
    rw [List.mem_range] at hi
    rw [hinitlen]
    exact hi
  obtain ⟨G1, G2, G3, G4⟩ := gridFold_spec 0 steps init hinitrows hval hpos hnodup2 hrange2
  have hprod : stepsProd steps = grids.prod := by
    rw [stepsProd, hsnd]
  have htakeprod : ∀ i, stepsProd (steps.take i) = (grids.take i).prod := by
    intro i
    rw [stepsProd, List.map_take, hsnd]
  have hstepD : ∀ i, i < n →
      steps.getD i (0, 1, ([] : List ℕ))
        = (i, grids.getD i 0, List.range (grids.getD i 0)) := by
    intro i hi
    have hir : i < (List.range n).length := by
      rw [List.length_range]
      exact hi
    rw [hsteps, getD_map_of_lt _ _ _ 0 _ hir, getD_range n i hi]
  have hF0 : ((gridFold 0 steps init).headD []).length = grids.prod := by
    rw [headD_eq_getD, G2 0 (by rw [hinitlen]; exact hn0), hprod]
  refine ⟨?_, ?_, ?_⟩
  · rw [hcore, npTranspose_length, hF0]
  · intro row hrow
    rw [hcore, npTranspose] at hrow
    obtain ⟨c, hc, rfl⟩ := List.mem_map.mp hrow
    rw [List.length_map, G1, hinitlen]
  · intro k hk i hi
    have hk2 : k < ((gridFold 0 steps init).headD []).length := by
      rw [hF0]
      exact hk
    rw [hcore, npTranspose_getD _ _ _ hk2,
      getD_map_of_lt _ _ _ [] _ (by rw [G1, hinitlen]; exact hi)]
    have h4 := G4 i (by rw [hsteplen]; exact hi) k (by rw [hprod]; exact hk)
    rw [hstepD i hi, htakeprod i] at h4
    have hglt : 0 < grids.getD i 0 := hgpos _ (getD_mem grids i 0 (by omega))
    calc ((gridFold 0 steps init).getD i []).getD k 0
        = (List.range (grids.getD i 0)).getD
            (k / (grids.take i).prod % grids.getD i 0) 0 := h4
      _ = k / (grids.take i).prod % grids.getD i 0 :=
          getD_range _ _ (Nat.mod_lt _ hglt)

theorem prod_take_succ_nat (l : List ℕ) (i : ℕ) (h : i < l.length) :
    (l.take (i + 1)).prod = (l.take i).prod * l.getD i 0 := by
  rw [List.take_succ, List.prod_append, List.getD_eq_getElem?_getD,
    List.getElem?_eq_getElem h]
  simp

theorem prod_take_dvd_nat (l : List ℕ) (n : ℕ) : (l.take n).prod ∣ l.prod := by
  conv_rhs => rw [← List.take_append_drop n l]
  rw [List.prod_append]
  exact dvd_mul_right _ _

theorem prod_pos_nat (l : List ℕ) (h : ∀ g ∈ l, 0 < g) : 0 < l.prod := by
  rw [CanonicallyOrderedCommSemiring.list_prod_pos]
  exact h

/-- C5: for all valid inputs, `permutate_parameters` returns exactly
`∏ grid_sizes` rows with one column per parameter; every non-varying column
equals its default value on every row; and each varying parameter's column is
linearly spaced and realizes exactly the lower bound and the upper bound. -/
theorem permutate_parameters_spec
    (var : List ℕ) (defaults lb ub : List ℚ) (grids : List ℕ)
    (hlen : defaults.length = lb.length)
    (hn0 : 0 < lb.length)
    (hnodup : var.Nodup)
    (hrange : ∀ p ∈ var, p < lb.length)
    (hglen : grids.length = var.length)
    (hg2 : ∀ g ∈ grids, 2 ≤ g) :
    (permutate_parameters var defaults lb ub (.sizes grids)).length = grids.prod ∧
    (∀ row ∈ permutate_parameters var defaults lb ub (.sizes grids),
        row.length = defaults.length) ∧
    (∀ k, k < grids.prod → ∀ j, j < defaults.length → j ∉ var →
      ((permutate_parameters var defaults lb ub (.sizes grids)).getD k []).getD j 0
        = defaults.getD j 0) ∧
    (∀ i, i < var.length →
      (∃ k, k < grids.prod ∧
        ((permutate_parameters var defaults lb ub (.sizes grids)).getD k []).getD
            (var.getD i 0) 0 = lb.getD (var.getD i 0) 0) ∧
      (∃ k, k < grids.prod ∧
        ((permutate_parameters var defaults lb ub (.sizes grids)).getD k []).getD
            (var.getD i 0) 0 = ub.getD (var.getD i 0) 0) ∧
      (∀ k, k < grids.prod → ∃ t, t < grids.getD i 0 ∧
        ((permutate_parameters var defaults lb ub (.sizes grids)).getD k []).getD
            (var.getD i 0) 0
          = lb.getD (var.getD i 0) 0
            + (ub.getD (var.getD i 0) 0 - lb.getD (var.getD i 0) 0) * (t : ℚ)
              / ((grids.getD i 0 : ℚ) - 1))) := by
  have hgpos : ∀ g ∈ grids, 0 < g := fun g hg => lt_of_lt_of_le two_pos (hg2 g hg)
  have hpp : permutate_parameters var defaults lb ub (.sizes grids)
      = permutate_core var defaults lb ub grids := rfl
  obtain ⟨E1, E2, E3, E4⟩ :=
    permutate_core_entry var defaults lb ub grids hn0 hnodup hrange hglen hgpos
  have hTpos : 0 < grids.prod := prod_pos_nat grids hgpos
  refine ⟨E1, ?_, ?_, ?_⟩
  · intro row hrow
    rw [hlen]
    exact E2 row hrow
  · intro k hk j hj hjnot
    exact E3 k hk j (hlen ▸ hj) hjnot
  · intro i hi
    have higl : i < grids.length := by omega
    have hgi2 : 2 ≤ grids.getD i 0 := hg2 _ (getD_mem grids i 0 higl)
    have hgi0 : 0 < grids.getD i 0 := by omega
    have hPpos : 0 < (grids.take i).prod :=
      prod_pos_nat _ (fun g hg => hgpos g (List.mem_of_mem_take hg))
    have hPdvd : (grids.take i).prod * grids.getD i 0 ∣ grids.prod := by
      rw [← prod_take_succ_nat grids i higl]
      exact prod_take_dvd_nat grids (i + 1)
    have hPgle : (grids.take i).prod * grids.getD i 0 ≤ grids.prod :=
      Nat.le_of_dvd hTpos hPdvd
    have hklt : (grids.getD i 0 - 1) * (grids.take i).prod < grids.prod :=
      calc (grids.getD i 0 - 1) * (grids.take i).prod
          < grids.getD i 0 * (grids.take i).prod :=
            (Nat.mul_lt_mul_right hPpos).mpr (by omega)
        _ ≤ grids.prod := by
            rw [mul_comm]
            exact hPgle
    refine ⟨⟨0, hTpos, ?_⟩, ⟨(grids.getD i 0 - 1) * (grids.take i).prod, hklt, ?_⟩, ?_⟩
    · rw [hpp, E4 0 hTpos i hi, Nat.zero_div, Nat.zero_mod]
      exact linspace_getD_zero _ _ _ hgi2
    · rw [hpp, E4 _ hklt i hi]
      rw [Nat.mul_div_cancel _ hPpos, Nat.mod_eq_of_lt (by omega)]
      exact linspace_getD_last _ _ _ hgi2
    · intro k hk
      refine ⟨k / (grids.take i).prod % grids.getD i 0, Nat.mod_lt _ hgi0, ?_⟩
      rw [hpp, E4 k hk i hi]
      exact linspace_getD _ _ _ _ hgi2 (Nat.mod_lt _ hgi0)

theorem permutate_parameters_spec_witness :
    (permutate_parameters [0] [1, 2] [0, 5] [2, 5] (.sizes [3])).length = [3].prod :=
  (permutate_parameters_spec [0] [1, 2] [0, 5] [2, 5] [3]
    (by decide) (by decide) (by decide) (by decide) (by decide) (by decide)).1

/-- C6: the concrete scenario
`permutate_parameters([0,1], [1,2,3], [0,0,3], [2,4,3], [3,2])` yields exactly
6 rows; column 2 equals 3 on every row; column 0 cycles through 0, 1, 2
fastest, paired with column 1 values 0 and 4. -/
theorem permutate_parameters_concrete :
    permutate_parameters [0, 1] [1, 2, 3] [0, 0, 3] [2, 4, 3] (.sizes [3, 2])
      = [[0, 0, 3], [1, 0, 3], [2, 0, 3], [0, 4, 3], [1, 4, 3], [2, 4, 3]] := by
  show permutate_core [0, 1] [1, 2, 3] [0, 0, 3] [2, 4, 3] [3, 2] = _
  norm_num [permutate_core, gridFold, gridStep, npTranspose, npTile, npRepeat,
    linspace, List.range_succ, List.foldl_cons, List.foldl_nil, List.getD]

/-- C7: `get_permuted_indices` returns its matrix successfully on a
list-shaped grid, and the grid coordinate it reports at combination `k` for
the `i`-th varying parameter, used to index that parameter's linspace,
reproduces the value `permutate_parameters` put at row `k` in that
parameter's column. -/
theorem permuted_indices_lockstep
    (var : List ℕ) (defaults lb ub : List ℚ) (grids : List ℕ)
    (hn0 : 0 < lb.length)
    (hnv : 0 < var.length)
    (hnodup : var.Nodup)
    (hrange : ∀ p ∈ var, p < lb.length)
    (hglen : grids.length = var.length)
    (hgpos : ∀ g ∈ grids, 0 < g) :
    get_permuted_indices var.length (.sizes grids)
      = .ok (permuted_indices_core var.length grids) ∧
    ∀ k, k < grids.prod → ∀ i, i < var.length →
      (linspace (lb.getD (var.getD i 0) 0) (ub.getD (var.getD i 0) 0)
          (grids.getD i 0)).getD
          (((permuted_indices_core var.length grids).getD k []).getD i 0) 0
        = ((permutate_parameters var defaults lb ub (.sizes grids)).getD k []).getD
            (var.getD i 0) 0 := by
  obtain ⟨_, _, I3⟩ := permuted_indices_core_entry var.length grids hnv hglen hgpos
  obtain ⟨_, _, _, E4⟩ :=
    permutate_core_entry var defaults lb ub grids hn0 hnodup hrange hglen hgpos
  refine ⟨rfl, ?_⟩
  intro k hk i hi
  rw [I3 k hk i hi]
  exact (E4 k hk i hi).symm

theorem permuted_indices_lockstep_witness :
    (linspace 0 2 2).getD (((permuted_indices_core 1 [2]).getD 1 []).getD 0 0) 0
      = ((permutate_parameters [0] [1] [0] [2] (.sizes [2])).getD 1 []).getD 0 0 :=
  (permuted_indices_lockstep [0] [1] [0] [2] [2] (by decide) (by decide) (by decide)
    (by decide) (by decide) (by decide)).2 1 (by decide) 0 (by decide)

/-- C9: `permutate_parameters` broadcasts a scalar grid size to the list
`[g] * len(var_params_ind)`, but `get_permuted_indices` subscripts the scalar
directly (`grid_size[ind]`) and raises `TypeError`; evaluated here at the
failing input `get_permuted_indices(2, 3)`. -/
theorem grid_size_scalar_broadcast :
    (∀ (var : List ℕ) (defaults lb ub : List ℚ) (g : ℕ),
      permutate_parameters var defaults lb ub (.scalar g)
        = permutate_parameters var defaults lb ub
            (.sizes (List.replicate var.length g))) ∧
    get_permuted_indices 2 (.scalar 3) = .error .typeError :=
  ⟨fun _ _ _ _ _ => rfl, rfl⟩

/-- C1: the entry state machine of `SampleSingleModel.run` over output
existence: with `recalculate` true an existing output directory is deleted
before any computation; otherwise, when the completeness marker exists, all
computation is skipped and the persisted result is loaded and returned — so a
second invocation with identical arguments and `recalculate = false` returns
the prior result without invoking the Processing Strategy's compute path;
otherwise the output directory is created when absent and processing
proceeds. -/
theorem sampleSingleModel_run_state_machine (recalculate : Bool) (computed : ℕ)
    (fs : SamplesFS) :
    (recalculate = true → fs.outputPathExists = true →
      ∃ rest, (sampleSingleModel_run recalculate computed fs).events
          = RunEvent.deleteOutputDir :: rest) ∧
    (recalculate = false → model_output_exists fs = true →
      (sampleSingleModel_run recalculate computed fs).result = load_samples fs ∧
      RunEvent.computeViaStrategy
        ∉ (sampleSingleModel_run recalculate computed fs).events) ∧
    (recalculate = false → model_output_exists fs = false →
      (fs.outputPathExists = false →
        RunEvent.makeOutputDir
          ∈ (sampleSingleModel_run recalculate computed fs).events) ∧
      RunEvent.computeViaStrategy
        ∈ (sampleSingleModel_run recalculate computed fs).events) ∧
    ((sampleSingleModel_run false computed
        (sampleSingleModel_run recalculate computed fs).fs).result
      = (sampleSingleModel_run recalculate computed fs).result ∧
     RunEvent.computeViaStrategy
       ∉ (sampleSingleModel_run false computed
            (sampleSingleModel_run recalculate computed fs).fs).events) := by
  obtain ⟨e, p⟩ := fs
  cases recalculate <;> cases e <;> cases p <;>
    simp [sampleSingleModel_run, model_output_exists, load_samples,
      processing_strategy_run]

theorem sampleSingleModel_run_state_machine_witness :
    (sampleSingleModel_run false 7 ⟨true, some 5⟩).result
        = load_samples ⟨true, some 5⟩ ∧
    RunEvent.computeViaStrategy
      ∉ (sampleSingleModel_run false 7 ⟨true, some 5⟩).events :=
  (sampleSingleModel_run_state_machine false 7 ⟨true, some 5⟩).2.1 rfl rfl

/-- C3: a cascade model fails construction with the UnsupportedModelKind
error before any device resolution, file I/O or directory creation: the entry
returns the error with an empty event trace, for every protocol, flag and
filesystem state. -/
theorem cascade_rejected_without_side_effects (name : String)
    (protocol : Protocol) (cl_device_ind : Option (List ℕ)) (recalculate : Bool)
    (computed : ℕ) (fs : SamplesFS) :
    ModelSampling_entry (.cascade name) protocol cl_device_ind recalculate computed fs
      = (.error .unsupportedModelKind, []) := rfl

/-- C4: when the model's protocol-sufficiency predicate fails, both
`ModelSampling.__init__` and `SampleSingleModel.__init__` raise
InsufficientProtocol carrying the model's enumerated protocol problems, and
the entry performs no computation or file I/O (empty event trace). -/
theorem insufficient_protocol_rejected (m : CompositeModel)
    (protocol : Protocol) (cl_device_ind : Option (List ℕ)) (recalculate : Bool)
    (computed : ℕ) (fs : SamplesFS)
    (h : m.is_protocol_sufficient protocol = false) :
    ModelSampling_init (.composite m) protocol
        = .error (.insufficientProtocol (m.get_protocol_problems protocol)) ∧
    SampleSingleModel_init m protocol
        = .error (.insufficientProtocol (m.get_protocol_problems protocol)) ∧
    ModelSampling_entry (.composite m) protocol cl_device_ind recalculate
        computed fs
        = (.error (.insufficientProtocol (m.get_protocol_problems protocol)),
           []) := by
  refine ⟨?_, ?_, ?_⟩ <;>
    simp [ModelSampling_init, SampleSingleModel_init, ModelSampling_entry, h]

theorem insufficient_protocol_rejected_witness :
    ModelSampling_init
        (.composite ⟨"Tensor", fun _ => false, fun _ => ["missing column b"]⟩)
        ["g"]
      = .error (.insufficientProtocol ["missing column b"]) :=
  (insufficient_protocol_rejected
    ⟨"Tensor", fun _ => false, fun _ => ["missing column b"]⟩
    ["g"] none false 0 ⟨false, none⟩ rfl).1

/-- C8: with `initialize` true, `_get_initialization_params` raises
NoInitializationMapsFound exactly when the resolved map collection under the
selected source mode is empty; with `initialize` false it returns the empty
mapping without error. -/
theorem get_initialization_params_spec (iu : InitializeUsing)
    (rvm : String → List (String × List ℚ)) (lv : String → List ℚ)
    (mask : List Bool) (folder : String) :
    (get_initialization_params true iu rvm lv mask folder
        = .error (.noInitializationMapsFound folder)
      ↔ (match iu with
         | .none => rvm folder = []
         | .folder p => rvm p = []
         | .mapping m => m = [])) ∧
    get_initialization_params false iu rvm lv mask folder = .ok [] := by
  constructor
  · cases iu <;>
      · simp only [get_initialization_params, if_true]
        split
        · rename_i hsplit
          simp only [List.isEmpty_iff, List.map_eq_nil_iff] at hsplit
          simp [hsplit]
        · rename_i hsplit
          simp only [List.isEmpty_iff, List.map_eq_nil_iff] at hsplit
          simp [hsplit]
  · rfl

/-- C10: `make_rician_distributed` returns elementwise
`|signals + noise_level * x_draw|`, and the result is independent of the
second Gaussian draw `y_draw`. -/
theorem make_rician_distributed_spec (signals x_draw y_draw : List (List ℝ))
    (noise_level : ℝ) :
    make_rician_distributed signals x_draw y_draw noise_level
      = (elemMap2 (fun s d => noise_level * d + s) signals x_draw).map
          (fun row => row.map (fun v => |v|)) ∧
    ∀ y2 : List (List ℝ),
      make_rician_distributed signals x_draw y_draw noise_level
        = make_rician_distributed signals x_draw y2 noise_level := by
  constructor
  · simp [make_rician_distributed, npSqrtWithOut, List.map_map, Function.comp,
      Real.sqrt_sq_eq_abs]
  · intro y2
    rfl

/-- C2 evaluated at the failing input: two identical problems with eight
unweighted measurements `[4,0,0,0,0,0,0,0]` and a fitted baseline of 0.
The source divides each per-problem sum of squared residuals (16) by the
number of problems (2), yielding `sqrt((16/2)/2) = 2`; the claimed estimator
divides by the number of unweighted measurements (8), yielding
`sqrt((16/8)/2) = 1`. -/
theorem estimate_noise_std_divergence :
    estimate_noise_std [[4, 0, 0, 0, 0, 0, 0, 0], [4, 0, 0, 0, 0, 0, 0, 0]]
        ⟨[0, 1, 2, 3, 4, 5, 6, 7]⟩ (fun _ => [0, 0]) = 2 ∧
    estimate_noise_std_claimed [[4, 0, 0, 0, 0, 0, 0, 0], [4, 0, 0, 0, 0, 0, 0, 0]]
        ⟨[0, 1, 2, 3, 4, 5, 6, 7]⟩ (fun _ => [0, 0]) = 1 ∧
    (2 : ℝ) ≠ 1 := by
  have h4 : Real.sqrt 4 = 2 := by
    rw [show (4 : ℝ) = 2 ^ 2 by norm_num, Real.sqrt_sq (by norm_num : (0 : ℝ) ≤ 2)]
  refine ⟨?_, ?_, by norm_num⟩
  · simp only [estimate_noise_std, get_unweighted_volumes]
    norm_num [h4]
    have h2 : Real.sqrt 2 ≠ 0 :=
      ne_of_gt (Real.sqrt_pos.mpr (by norm_num : (0 : ℝ) < 2))
    rw [show (8 : ℝ) = 4 * 2 by norm_num,
      Real.sqrt_mul (by norm_num : (0 : ℝ) ≤ 4), h4]
    field_simp
  · simp only [estimate_noise_std_claimed, get_unweighted_volumes]
    norm_num [Real.sqrt_one]

end MDTVerify

